import Mathlib

/-!
Verification of the analytical core of the Analise_tenda repository
(`utils/data_processor.py` and its callers) against its natural-language
specification.  The Python data frames are embedded shallowly: rows become
structures over `ℚ`/`ℕ`/`String`, column operations become list operations,
and the scipy / numpy routines invoked by the source
(`scipy.signal.find_peaks`, `numpy.percentile`) are embedded from their
reference algorithms, since the source's behaviour is defined in terms of
them.  Quantities are rationals (the spreadsheets hold decimal numbers and
none of the verified claims depends on binary floating-point rounding).
-/

namespace Tenda

/-! ## numpy.percentile (default linear interpolation) -/

/-- Ascending sort of a list of rationals, as `numpy.sort` on values.
Ties carry no payload here, so any comparison sort is extensionally the
same; we use Mathlib's insertion sort. -/
def sortQ (a : List ℚ) : List ℚ := a.insertionSort (· ≤ ·)

/-- Embeds `numpy.percentile(a, q)` with the default linear interpolation:
with `h = (len-1)·q/100`, the result is
`s[⌊h⌋] + (h-⌊h⌋)·(s[⌈h⌉]-s[⌊h⌋])` over the ascending sort `s` of `a`. -/
def percentile (a : List ℚ) (q : ℚ) : ℚ :=
  let s := sortQ a
  let h : ℚ := ((a.length : ℚ) - 1) * q / 100
  let lo : ℕ := (⌊h⌋).toNat
  let hi : ℕ := (⌈h⌉).toNat
  s.getD lo 0 + (h - (lo : ℚ)) * (s.getD hi 0 - s.getD lo 0)

/-! ## scipy.signal.find_peaks

The source calls `find_peaks(x, height=…, distance=2)`.  We embed the
relevant fragment of scipy's algorithm: `_local_maxima_1d` (plateau
midpoints), the height filter (`height ≤ value`, evaluated first), then
`_select_by_peak_distance` (suppression in decreasing order of peak
height).  -/

/-- Inner while-loop of scipy `_local_maxima_1d`: starting at index `i`,
advance while `i < iMax` and `x[i] = v` (the plateau value); returns the
first index past the plateau.  `fuel` dominates the number of steps. -/
def findAheadF (x : List ℚ) (iMax : ℕ) (v : ℚ) : ℕ → ℕ → ℕ
  | 0, i => i
  | fuel + 1, i =>
      if i < iMax ∧ x.getD i 0 = v then findAheadF x iMax v fuel (i + 1) else i

/-- Outer loop of scipy `_local_maxima_1d`, producing plateau midpoints
`(left + right) / 2` of every local maximum; `iMax = length - 1`, the scan
runs over `1 ≤ i < iMax`.  `fuel` dominates the number of iterations. -/
def lmAux (x : List ℚ) (iMax : ℕ) : ℕ → ℕ → List ℕ
  | 0, _ => []
  | fuel + 1, i =>
      if i < iMax then
        if x.getD (i - 1) 0 < x.getD i 0 then
          let iAhead := findAheadF x iMax (x.getD i 0) iMax (i + 1)
          if x.getD iAhead 0 < x.getD i 0 then
            (i + (iAhead - 1)) / 2 :: lmAux x iMax fuel (iAhead + 1)
          else
            lmAux x iMax fuel (i + 1)
        else
          lmAux x iMax fuel (i + 1)
      else []

/-- scipy `_local_maxima_1d`: midpoints of all interior local maxima
(plateaus included) of `x`, in increasing index order. -/
def localMaxima (x : List ℚ) : List ℕ :=
  lmAux x (x.length - 1) x.length 1

/-- One suppression pass of scipy `_select_by_peak_distance` for the peak
at position `j` (peak index `pj`): clears `keep[k]` for every other
position whose peak index is closer than `d` to `pj`.  The source walks
outward from `j` and stops at the first position at distance `≥ d`; on the
increasing peak lists produced by `localMaxima` this is extensionally the
same as clearing all positions within distance `< d`. -/
def suppressFrom (peaks : List ℕ) (j pj d : ℕ) : ℕ → List Bool → List Bool
  | _, [] => []
  | k, b :: rest =>
      (if k ≠ j ∧ Nat.dist (peaks.getD k 0) pj < d then false else b) ::
        suppressFrom peaks j pj d (k + 1) rest

/-- Positions of `prio` in decreasing priority order, the order in which
scipy `_select_by_peak_distance` visits peaks.  The source uses a
non-stable argsort, so the relative order of equal priorities is
unspecified there; the theorems below are independent of that order. -/
def argsortDescQ (prio : List ℚ) : List ℕ :=
  (List.range prio.length).insertionSort (fun i j => prio.getD j 0 ≤ prio.getD i 0)

/-- scipy `_select_by_peak_distance peaks prio d`: visits positions in
decreasing priority, skips already-suppressed ones, and suppresses every
other peak closer than `d`; returns the keep mask. -/
def selectByPeakDistance (peaks : List ℕ) (prio : List ℚ) (d : ℕ) : List Bool :=
  (argsortDescQ prio).foldl
    (fun keep j =>
      if keep.getD j false then suppressFrom peaks j (peaks.getD j 0) d 0 keep
      else keep)
    (List.replicate peaks.length true)

/-- scipy `find_peaks(x, height, distance)` (the argument combination used
by `DataProcessor.detect_peaks_by_project`): local maxima, then the height
condition `height ≤ x[peak]`, then distance-based suppression. -/
def findPeaks (x : List ℚ) (height : ℚ) (d : ℕ) : List ℕ :=
  let m1 := (localMaxima x).filter (fun i => height ≤ x.getD i 0)
  let keep := selectByPeakDistance m1 (m1.map (fun i => x.getD i 0)) d
  (m1.zip keep).filterMap (fun p => if p.2 then some p.1 else none)

/-! ## DataProcessor.detect_peaks_by_project

Movement rows after normalization (`process_temporal_data` plus the
callers in `app.py`/`dashboard.py`, which set `Tipo_Movimento` and store
`Saída` quantities as `-abs(quantity)`).  Timestamps are minutes since an
epoch aligned to midnight, so `dt.floor('H')` is flooring to a multiple
of 60. -/
structure MovRow where
  ts : ℕ
  linha : String
  tipo : String
  qty : ℚ
deriving DecidableEq

/-- `Data Movimento.dt.floor('H')` on a minute-valued timestamp. -/
def floorH (t : ℕ) : ℕ := t / 60 * 60

/-- Distinct values in first-occurrence order, as pandas `Series.unique`. -/
def uniqueFirst (l : List String) : List String :=
  l.foldl (fun acc a => if a ∈ acc then acc else acc ++ [a]) []

/-- Ascending list of the distinct naturals of `l`, the group keys of a
pandas `groupby` (which sorts keys). -/
def sortedKeys (l : List ℕ) : List ℕ :=
  ((l.foldl (fun acc a => if a ∈ acc then acc else acc ++ [a]) []).insertionSort (· ≤ ·))

/-- `rows.groupby(rows['Data Movimento'].dt.floor('H'))['Quantidade'].sum()`:
hour-floor keys in ascending order, each with the summed quantity. -/
def groupSumByHour (rows : List MovRow) : List (ℕ × ℚ) :=
  (sortedKeys (rows.map (fun r => floorH r.ts))).map
    (fun k => (k, (((rows.filter (fun r => floorH r.ts == k)).map (fun r => r.qty)).sum)))

/-- Per-project value stored in the `peaks_data` dictionary built by
`detect_peaks_by_project`. -/
structure PeaksEntry where
  entradaData : List (ℕ × ℚ)
  saidaData : List (ℕ × ℚ)
  peaksEntrada : List ℕ
  peaksSaida : List ℕ
  valuesEntrada : List ℚ
  valuesSaida : List ℚ
  datesEntrada : List ℕ
  datesSaida : List ℕ
deriving DecidableEq

/-- Saída branch of `detect_peaks_by_project`: peaks of the absolute
magnitudes with the 75th percentile of the magnitudes as height (the
`len > 0` guard of the source is subsumed by the `3 ≤ length` guard under
which this is called). -/
def detectSaidaPeaks (sq : List ℚ) : List ℕ :=
  findPeaks (sq.map (fun v => |v|)) (percentile (sq.map (fun v => |v|)) 75) 2

/-- Body of the `detect_peaks_by_project` loop for one project's rows:
`none` when the project has fewer than 3 records (the `continue`). -/
def detectPeaksProject (rows : List MovRow) : Option PeaksEntry :=
  if rows.length < 3 then none
  else
    let entradaData := groupSumByHour (rows.filter (fun r => r.tipo == "Entrada"))
    let saidaData := groupSumByHour (rows.filter (fun r => r.tipo == "Saída"))
    let eq := entradaData.map (fun p => p.2)
    let sq := saidaData.map (fun p => p.2)
    let peaksEntrada :=
      if 3 ≤ entradaData.length then findPeaks eq (percentile eq 75) 2 else []
    let peaksSaida :=
      if 3 ≤ saidaData.length then detectSaidaPeaks sq else []
    some
      { entradaData := entradaData
        saidaData := saidaData
        peaksEntrada := peaksEntrada
        peaksSaida := peaksSaida
        valuesEntrada := peaksEntrada.map (fun i => (entradaData.getD i (0, 0)).2)
        valuesSaida := peaksSaida.map (fun i => (saidaData.getD i (0, 0)).2)
        datesEntrada := peaksEntrada.map (fun i => (entradaData.getD i (0, 0)).1)
        datesSaida := peaksSaida.map (fun i => (saidaData.getD i (0, 0)).1) }

/-- `DataProcessor.detect_peaks_by_project`: iterate the distinct `Linha
ATO` values in first-occurrence order and collect the per-project entries
of the projects that are not skipped. -/
def detectPeaksByProject (rows : List MovRow) : List (String × PeaksEntry) :=
  (uniqueFirst (rows.map (fun r => r.linha))).filterMap
    (fun p => (detectPeaksProject (rows.filter (fun r => r.linha == p))).map
      (fun e => (p, e)))

/-! ## DataProcessor.process_temporal_data

Raw spreadsheet rows carry unparsed cells.  `pd.to_datetime` and
`pd.to_numeric` are external library collaborators, so the embedding is
parametric in the two cell parsers (`errors='coerce'` makes each a
partial function, `Option`-valued here).  The source's second and third
date-parsing attempts re-parse the *already overwritten* column (the
first `to_datetime(..., errors='coerce')` replaced every cell by its
parse result or `NaT`), so they can never recover a row that the first
format dropped: a single parse pass is the exact behaviour. -/
structure RawRow where
  dataMovimento : String
  quantidade : String
  linha : String
  tipo : String

/-- Kept row after `process_temporal_data`: parsed timestamp (minutes),
numeric quantity, carried-through key columns, and the derived columns
used downstream (`Hora`, `Data`); the remaining derived calendar columns
(`Dia`, `Mes`, `Ano`, `Dia_Semana`, `Dia_Hora`) are further pure
functions of `ts` used only for display groupings outside the verified
claims. -/
structure ProcRow where
  ts : ℕ
  qty : ℚ
  linha : String
  tipo : String
  hora : ℕ
  data : ℕ
deriving DecidableEq

/-- `DataProcessor.process_temporal_data`: coerce the date column (rows
failing to parse are dropped), coerce the quantity column (likewise),
derive the calendar columns, sort ascending by timestamp.  The `some`
result is the Python `return df_processed`; the `try/except` returns
`None` only if a step raises, which none of the embedded steps does. -/
def processTemporalData (parseDT : String → Option ℕ) (parseQty : String → Option ℚ)
    (rows : List RawRow) : Option (List ProcRow) :=
  let withDT := rows.filterMap (fun r => (parseDT r.dataMovimento).map (fun t => (r, t)))
  let withQty := withDT.filterMap
    (fun p => (parseQty p.1.quantidade).map (fun q => (p.1, p.2, q)))
  let procs := withQty.map
    (fun t => ProcRow.mk t.2.1 t.2.2 t.1.linha t.1.tipo (t.2.1 / 60 % 24) (t.2.1 / 1440))
  some (procs.insertionSort (fun a b => a.ts ≤ b.ts))

/-! ## DataProcessor.apply_filters

`apply_filters` is used both on movement data and on coverage data and
reads columns dynamically, so here the data frame is untyped: a column
header list plus rows of (column, cell) pairs.  A missing `Linha ATO`
column makes `df_filtered['Linha ATO']` raise `KeyError`, embedded as the
`Except.error` case. -/
inductive Cell where
  | s (v : String)
  | d (v : ℕ)
  | q (v : ℚ)
  | na
deriving DecidableEq

/-- Untyped data-frame row. -/
abbrev RowU : Type := List (String × Cell)

/-- Column lookup inside one row. -/
def lookupCell (r : RowU) (c : String) : Option Cell :=
  (r.find? (fun p => p.1 == c)).map (fun p => p.2)

/-- Untyped data frame: header list plus rows. -/
structure Table where
  cols : List String
  rows : List RowU
deriving DecidableEq

/-- Row predicate of `df_filtered['Linha ATO'].isin(selected_projects)`;
a non-string cell (pandas `NaN`) is never in the list. -/
def projectMask (projects : List String) (r : RowU) : Bool :=
  match lookupCell r "Linha ATO" with
  | some (Cell.s v) => projects.contains v
  | _ => false

/-- Row predicate of the inclusive date-range mask
`(col_data_date >= start_date) & (col_data_date <= end_date)`; a cell that
is not a date (pandas `NaT`) compares false.  Dates are day numbers. -/
def dateMask (dateCol : String) (startD endD : ℕ) (r : RowU) : Bool :=
  match lookupCell r dateCol with
  | some (Cell.d v) => decide (startD ≤ v) && decide (v ≤ endD)
  | _ => false

/-- `DataProcessor.apply_filters`: project filter, then the date filter on
`Data Movimento` if present, else on `Data_Processamento` if present, else
report the missing-date-column error (via `st.error`) and return the
project-filtered rows.  Accessing the absent `Linha ATO` column raises
`KeyError`, uncaught in the source. -/
def applyFilters (t : Table) (projects : List String) (startD endD : ℕ) :
    Except String Table :=
  if "Linha ATO" ∈ t.cols then
    let r1 := t.rows.filter (projectMask projects)
    if "Data Movimento" ∈ t.cols then
      Except.ok ⟨t.cols, r1.filter (dateMask "Data Movimento" startD endD)⟩
    else if "Data_Processamento" ∈ t.cols then
      Except.ok ⟨t.cols, r1.filter (dateMask "Data_Processamento" startD endD)⟩
    else
      Except.ok ⟨t.cols, r1⟩
  else Except.error "KeyError: Linha ATO"

/-! ## Critical-item classification

`get_critical_summary`, `analyze_critical_items_over_time` and
`get_critical_materials_by_line` classify a coverage row by regex search
(`Series.str.contains(p1|…|pn, case=False)`) over `Nível de Cobertura`.
The patterns are literal words, so the search is a case-insensitive
substring test.  `case=False` lower-cases via Unicode; the pattern lists
of the source spell out every accent/case variant they rely on, so
ASCII lower-casing of both sides reproduces the match on those lists. -/

/-- Character-list prefix test. -/
def chPre : List Char → List Char → Bool
  | [], _ => true
  | _ :: _, [] => false
  | a :: as, b :: bs => a == b && chPre as bs

/-- Character-list substring test. -/
def chSub (needle : List Char) : List Char → Bool
  | [] => needle.isEmpty
  | b :: bs => chPre needle (b :: bs) || chSub needle bs

/-- Case-insensitive (ASCII fold) substring test, embedding
`Series.str.contains(pat, case=False)` for a literal pattern. -/
def containsCI (pat s : String) : Bool :=
  chSub (pat.toList.map Char.toLower) (s.toList.map Char.toLower)

/-- Pattern list of `get_critical_summary` /
`get_critical_materials_by_line`. -/
def criticalPatterns : List String :=
  ["crítico", "critico", "Crítico", "Critico", "CRÍTICO", "CRITICO",
   "critical", "Critical", "CRITICAL"]

/-- Pattern list of `analyze_critical_items_over_time` (no English
variants). -/
def criticalPatternsHist : List String :=
  ["crítico", "critico", "Crítico", "Critico", "CRÍTICO", "CRITICO"]

/-- Critical mask of `get_critical_summary` (lines 590-595): any critical
pattern matches; no further exclusion. -/
def summaryMask (level : String) : Bool :=
  criticalPatterns.any (fun p => containsCI p level)

/-- Critical mask of `analyze_critical_items_over_time` (lines 566-570):
a critical pattern matches AND the text does not contain `baixo`
(case-insensitive). -/
def historyMask (level : String) : Bool :=
  (criticalPatternsHist.any (fun p => containsCI p level)) && !(containsCI "baixo" level)

/-- `total_critical` of `get_critical_summary` over the coverage rows'
`Nível de Cobertura` texts: `len(df[critical_mask])`. -/
def getCriticalSummaryTotal (levels : List String) : ℕ :=
  (levels.filter summaryMask).length

/-- `total_critical` computed by `analyze_critical_items_over_time` on its
no-history path: `len(df[critical_mask])` with the `baixo` exclusion. -/
def historyCriticalTotal (levels : List String) : ℕ :=
  (levels.filter historyMask).length

/-! ## DataProcessor.save_critical_history

The upsert into the persisted history.  Loading (GitHub / local file) and
writing back are external I/O collaborators; the embedded function is the
pure history transformation between load and store.  `Data` values are
calendar-day numbers (the source compares `.dt.date` values, and stores
`pd.Timestamp(date.today())` for new rows). -/
structure HistEntry where
  data : ℕ
  percentual : ℚ
  totalItems : ℚ
  itemsCriticos : ℚ
deriving DecidableEq

/-- `percentage = (total_critical / total_items * 100) if total_items > 0
else 0`. -/
def pctOf (totalItems itemsCriticos : ℚ) : ℚ :=
  if 0 < totalItems then itemsCriticos / totalItems * 100 else 0

/-- `DataProcessor.save_critical_history` on an in-memory history: if any
entry's date equals today's date, overwrite the `Percentual`,
`Total_Items`, `Items_Criticos` of every such entry; otherwise append a
new entry; then sort by `Data`. -/
def saveCriticalHistory (history : List HistEntry) (today : ℕ)
    (totalItems itemsCriticos : ℚ) : List HistEntry :=
  let percentage := pctOf totalItems itemsCriticos
  let newEntry : HistEntry := ⟨today, percentage, totalItems, itemsCriticos⟩
  let h2 :=
    if history.isEmpty then [newEntry]
    else if history.any (fun e => e.data == today) then
      history.map (fun e =>
        if e.data == today then ⟨e.data, percentage, totalItems, itemsCriticos⟩ else e)
    else history ++ [newEntry]
  h2.insertionSort (fun a b => a.data ≤ b.data)

/-! ## Coverage percentage (`get_critical_materials_by_line`)

`materiais['Cobertura %'] = (Balance / Necessidade * 100).round(2)` is
pandas float arithmetic: division by zero yields `±inf` or `NaN`, never an
exception.  The float domain is embedded as exact rationals extended with
the three special values; `.round(2)` is decimal half-even rounding on the
finite values and fixes the specials. -/
inductive PFloat where
  | finite (q : ℚ)
  | pinf
  | ninf
  | nan
deriving DecidableEq

/-- pandas/numpy float division including the zero-divisor cases. -/
def divP (b n : ℚ) : PFloat :=
  if n ≠ 0 then PFloat.finite (b / n)
  else if 0 < b then PFloat.pinf
  else if b < 0 then PFloat.ninf
  else PFloat.nan

/-- Multiplication of the quotient by the literal `100`. -/
def mulP100 : PFloat → PFloat
  | PFloat.finite q => PFloat.finite (q * 100)
  | PFloat.pinf => PFloat.pinf
  | PFloat.ninf => PFloat.ninf
  | PFloat.nan => PFloat.nan

/-- Round-half-to-even to an integer, as numpy rounding on exact values. -/
def roundHalfEven (q : ℚ) : ℤ :=
  let f := ⌊q⌋
  let r := q - f
  if r < 1 / 2 then f
  else if 1 / 2 < r then f + 1
  else if f % 2 = 0 then f else f + 1

/-- `Series.round(2)`: specials are fixed, finite values are rounded to
two decimals. -/
def round2P : PFloat → PFloat
  | PFloat.finite q => PFloat.finite ((roundHalfEven (q * 100) : ℚ) / 100)
  | PFloat.pinf => PFloat.pinf
  | PFloat.ninf => PFloat.ninf
  | PFloat.nan => PFloat.nan

/-- The `Cobertura %` value computed per material row by
`get_critical_materials_by_line`. -/
def coberturaPct (balance necessidade : ℚ) : PFloat :=
  round2P (mulP100 (divP balance necessidade))

/-! ## Structure of the `find_peaks` output

Local maxima midpoints are pairwise at least 2 apart, so the `distance=2`
suppression used by `detect_peaks_by_project` never removes a candidate:
`find_peaks(x, height=h, distance=2)` is exactly the height-filtered list
of local maxima. -/

lemma findAheadF_ge (x : List ℚ) (iMax : ℕ) (v : ℚ) :
    ∀ fuel i, i ≤ findAheadF x iMax v fuel i := by
  intro fuel
  induction fuel with
  | zero => intro i; simp [findAheadF]
  | succ n ih =>
      intro i
      simp only [findAheadF]
      split
      · exact le_trans (Nat.le_succ i) (ih (i + 1))
      · exact le_refl i

lemma lmAux_ge (x : List ℚ) (iMax : ℕ) :
    ∀ fuel i m, m ∈ lmAux x iMax fuel i → i ≤ m := by
  intro fuel
  induction fuel with
  | zero => intro i m hm; simp [lmAux] at hm
  | succ n ih =>
      intro i m hm
      simp only [lmAux] at hm
      split at hm
      · split at hm
        · split at hm
          · rcases List.mem_cons.mp hm with h | h
            · subst h
              have h1 : i + 1 ≤ findAheadF x iMax (x.getD i 0) iMax (i + 1) :=
                findAheadF_ge x iMax _ iMax (i + 1)
              have h2 : i + i ≤ i + (findAheadF x iMax (x.getD i 0) iMax (i + 1) - 1) := by
                omega
              have h3 : (i + i) / 2 ≤
                  (i + (findAheadF x iMax (x.getD i 0) iMax (i + 1) - 1)) / 2 :=
                Nat.div_le_div_right h2
              omega
            · have := ih _ _ h
              have h1 : i + 1 ≤ findAheadF x iMax (x.getD i 0) iMax (i + 1) :=
                findAheadF_ge x iMax _ iMax (i + 1)
              omega
          · exact le_trans (Nat.le_succ i) (ih _ _ hm)
        · exact le_trans (Nat.le_succ i) (ih _ _ hm)
      · simp at hm

lemma lmAux_pairwise (x : List ℚ) (iMax : ℕ) :
    ∀ fuel i, (lmAux x iMax fuel i).Pairwise (fun a b => a + 2 ≤ b) := by
  intro fuel
  induction fuel with
  | zero => intro i; simp [lmAux]
  | succ n ih =>
      intro i
      simp only [lmAux]
      split
      · split
        · split
          · refine List.Pairwise.cons ?_ (ih _)
            intro b hb
            have hge := lmAux_ge x iMax n _ b hb
            have h1 : i + 1 ≤ findAheadF x iMax (x.getD i 0) iMax (i + 1) :=
              findAheadF_ge x iMax _ iMax (i + 1)
            have h2 : i + (findAheadF x iMax (x.getD i 0) iMax (i + 1) - 1) ≤
                (findAheadF x iMax (x.getD i 0) iMax (i + 1) - 1) * 2 := by omega
            have h3 : (i + (findAheadF x iMax (x.getD i 0) iMax (i + 1) - 1)) / 2 ≤
                (findAheadF x iMax (x.getD i 0) iMax (i + 1) - 1) * 2 / 2 :=
              Nat.div_le_div_right h2
            rw [Nat.mul_div_cancel _ (by norm_num)] at h3
            omega
          · exact ih _
        · exact ih _
      · exact List.Pairwise.nil

lemma localMaxima_pairwise (x : List ℚ) :
    (localMaxima x).Pairwise (fun a b => a + 2 ≤ b) :=
  lmAux_pairwise x (x.length - 1) x.length 1

lemma suppressFrom_id (peaks : List ℕ) (j pj d : ℕ) :
    ∀ keep k0,
      (∀ k, k0 ≤ k → k < k0 + keep.length → k ≠ j → d ≤ Nat.dist (peaks.getD k 0) pj) →
      suppressFrom peaks j pj d k0 keep = keep := by
  intro keep
  induction keep with
  | nil => intro k0 _; rfl
  | cons b rest ih =>
      intro k0 h
      simp only [suppressFrom]
      have hcond : ¬(k0 ≠ j ∧ Nat.dist (peaks.getD k0 0) pj < d) := by
        rintro ⟨hne, hlt⟩
        have := h k0 (le_refl _) (by simp only [List.length_cons]; omega) hne
        omega
      rw [if_neg hcond,
        ih (k0 + 1) (fun k hk1 hk2 hk3 =>
          h k (by omega) (by simp only [List.length_cons]; omega) hk3)]

lemma pairwise_dist_ge (peaks : List ℕ)
    (hp : peaks.Pairwise (fun a b => a + 2 ≤ b)) :
    ∀ k j, k < peaks.length → j < peaks.length → k ≠ j →
      2 ≤ Nat.dist (peaks.getD k 0) (peaks.getD j 0) := by
  intro k j hk hj hkj
  have hpg := List.pairwise_iff_getElem.mp hp
  have hdk : peaks.getD k 0 = peaks[k] := by
    rw [List.getD_eq_getElem?_getD, List.getElem?_eq_getElem hk]; rfl
  have hdj : peaks.getD j 0 = peaks[j] := by
    rw [List.getD_eq_getElem?_getD, List.getElem?_eq_getElem hj]; rfl
  rcases lt_or_gt_of_ne hkj with h | h
  · have := hpg k j hk hj h
    rw [hdk, hdj]
    unfold Nat.dist
    omega
  · have := hpg j k hj hk h
    rw [hdk, hdj]
    unfold Nat.dist
    omega

lemma selectByPeakDistance_all_true (peaks : List ℕ) (prio : List ℚ)
    (hlen : prio.length = peaks.length)
    (hp : peaks.Pairwise (fun a b => a + 2 ≤ b)) :
    selectByPeakDistance peaks prio 2 = List.replicate peaks.length true := by
  unfold selectByPeakDistance
  have hmem : ∀ j ∈ argsortDescQ prio, j < peaks.length := by
    intro j hj
    have : j ∈ List.range prio.length :=
      (List.perm_insertionSort _ (List.range prio.length)).mem_iff.mp hj
    rw [List.mem_range] at this
    omega
  generalize argsortDescQ prio = order at hmem
  induction order with
  | nil => rfl
  | cons j rest ih =>
      have hj := hmem j (List.mem_cons_self j rest)
      simp only [List.foldl_cons]
      have hstep :
          (if (List.replicate peaks.length true).getD j false then
            suppressFrom peaks j (peaks.getD j 0) 2 0 (List.replicate peaks.length true)
          else List.replicate peaks.length true) = List.replicate peaks.length true := by
        split
        · exact suppressFrom_id peaks j (peaks.getD j 0) 2 _ 0
            (fun k hk1 hk2 hk3 => by
              rw [List.length_replicate] at hk2
              exact pairwise_dist_ge peaks hp k j (by omega) hj hk3)
        · rfl
      rw [hstep]
      exact ih (fun k hk => hmem k (List.mem_cons_of_mem j hk))

lemma zip_replicate_filterMap (l : List ℕ) :
    ((l.zip (List.replicate l.length true)).filterMap
      (fun p => if p.2 then some p.1 else none)) = l := by
  induction l with
  | nil => rfl
  | cons a t ih =>
      simp only [List.length_cons, List.replicate_succ, List.zip_cons_cons,
        List.filterMap_cons]
      simp [ih]

/-- With `distance = 2`, `find_peaks` returns exactly the height-filtered
local maxima: the suppression step removes nothing because local maxima
are always at least two buckets apart. -/
lemma findPeaks_eq_filter (x : List ℚ) (h : ℚ) :
    findPeaks x h 2 = (localMaxima x).filter (fun i => decide (h ≤ x.getD i 0)) := by
  simp only [findPeaks]
  have hpair : ((localMaxima x).filter (fun i => decide (h ≤ x.getD i 0))).Pairwise
      (fun a b => a + 2 ≤ b) :=
    List.Pairwise.sublist (List.filter_sublist (localMaxima x)) (localMaxima_pairwise x)
  rw [selectByPeakDistance_all_true _ _ (List.length_map _ _) hpair]
  exact zip_replicate_filterMap _

/-! ## Percentile of a negated series

`np.percentile(-x, 75) = -np.percentile(x, 25)`: the sorted order
reverses and the linear interpolation is affine.  This is what makes the
saída branch of `detect_peaks_by_project` (maxima of `abs` with the 75th
percentile of `abs`) a genuine low-peak detector at the 25th percentile
of the original nonpositive series. -/

lemma sortQ_sorted (a : List ℚ) : (sortQ a).Sorted (· ≤ ·) :=
  List.sorted_insertionSort _ a

lemma sortQ_perm (a : List ℚ) : (sortQ a).Perm a :=
  List.perm_insertionSort _ a

lemma sortQ_length (a : List ℚ) : (sortQ a).length = a.length :=
  (sortQ_perm a).length_eq

lemma sortQ_neg (a : List ℚ) :
    sortQ (a.map (fun v => -v)) = ((sortQ a).map (fun v => -v)).reverse := by
  refine List.eq_of_perm_of_sorted ?_ (sortQ_sorted _) ?_
  · have h2 : (((sortQ a).map (fun v => -v)).reverse).Perm (a.map (fun v => -v)) :=
      (List.reverse_perm _).trans ((sortQ_perm a).map (fun v => -v))
    exact (sortQ_perm _).trans h2.symm
  · rw [List.Sorted, List.pairwise_reverse]
    exact List.Pairwise.map (fun v => -v) (fun p q hpq => neg_le_neg hpq) (sortQ_sorted a)

lemma getD_reverse_map_neg (s : List ℚ) (i : ℕ) (hi : i < s.length) :
    (((s.map (fun v => -v)).reverse).getD i 0) = -(s.getD (s.length - 1 - i) 0) := by
  have hi' : i < (s.map (fun v => -v)).length := by simpa using hi
  have hj : s.length - 1 - i < s.length := by omega
  rw [List.getD_eq_getElem?_getD, List.getElem?_reverse hi', List.length_map,
    List.getElem?_map, List.getD_eq_getElem?_getD, List.getElem?_eq_getElem hj]
  rfl

lemma percentile_neg (x : List ℚ) (hx : 1 ≤ x.length) :
    percentile (x.map (fun v => -v)) 75 = -(percentile x 25) := by
  simp only [percentile, List.length_map, sortQ_neg]
  set n := x.length with hn
  set s := sortQ x with hs
  have hsl : s.length = n := sortQ_length x
  set h25 : ℚ := ((n : ℚ) - 1) * 25 / 100 with hdef25
  set h75 : ℚ := ((n : ℚ) - 1) * 75 / 100 with hdef75
  set N : ℤ := (n : ℤ) - 1 with hN
  have hone : (1 : ℚ) ≤ (n : ℚ) := by exact_mod_cast hx
  have hNn : (N : ℚ) = (n : ℚ) - 1 := by rw [hN]; push_cast; ring
  have hsum : h75 = (N : ℚ) - h25 := by rw [hNn, hdef25, hdef75]; ring
  have h25nonneg : 0 ≤ h25 := by
    rw [hdef25]
    apply div_nonneg _ (by norm_num)
    apply mul_nonneg (by linarith) (by norm_num)
  have h25le : h25 ≤ (N : ℚ) := by
    rw [hdef25, hNn]
    nlinarith [hone]
  have hflo : (0 : ℤ) ≤ ⌊h25⌋ := Int.floor_nonneg.mpr h25nonneg
  have hfhi : ⌈h25⌉ ≤ N := Int.ceil_le.mpr h25le
  have hfle : ⌊h25⌋ ≤ ⌈h25⌉ := Int.floor_le_ceil h25
  have hfsucc : ⌈h25⌉ ≤ ⌊h25⌋ + 1 := Int.ceil_le_floor_add_one h25
  have hlo75 : ⌊h75⌋ = N - ⌈h25⌉ := by
    rw [hsum, sub_eq_neg_add, Int.floor_add_int, Int.floor_neg]; ring
  have hhi75 : ⌈h75⌉ = N - ⌊h25⌋ := by
    rw [hsum, sub_eq_neg_add, Int.ceil_add_int, Int.ceil_neg]; ring
  have hNval : N = (n : ℤ) - 1 := hN
  have hi1 : (⌊h75⌋).toNat < s.length := by rw [hsl]; omega
  have hi2 : (⌈h75⌉).toNat < s.length := by rw [hsl]; omega
  rw [getD_reverse_map_neg s _ hi1, getD_reverse_map_neg s _ hi2]
  have e1 : s.length - 1 - (⌊h75⌋).toNat = (⌈h25⌉).toNat := by rw [hsl]; omega
  have e2 : s.length - 1 - (⌈h75⌉).toNat = (⌊h25⌋).toNat := by rw [hsl]; omega
  rw [e1, e2]
  have hc75l : (((⌊h75⌋).toNat : ℚ)) = (N : ℚ) - ((⌈h25⌉).toNat : ℚ) := by
    have t1 : ((⌊h75⌋).toNat : ℤ) = ⌊h75⌋ := Int.toNat_of_nonneg (by omega)
    have t2 : ((⌈h25⌉).toNat : ℤ) = ⌈h25⌉ := Int.toNat_of_nonneg (by omega)
    have : ((⌊h75⌋).toNat : ℤ) = N - ((⌈h25⌉).toNat : ℤ) := by omega
    exact_mod_cast this
  have hc25l : (((⌊h25⌋).toNat : ℚ)) = ((⌊h25⌋ : ℤ) : ℚ) := by
    exact_mod_cast congrArg (fun z : ℤ => (z : ℚ)) (Int.toNat_of_nonneg hflo)
  rcases (by omega : ⌈h25⌉ = ⌊h25⌋ ∨ ⌈h25⌉ = ⌊h25⌋ + 1) with hc | hc
  · have hidx : (⌈h25⌉).toNat = (⌊h25⌋).toNat := by omega
    rw [hidx]
    ring
  · have hch : ((⌈h25⌉).toNat : ℚ) = ((⌊h25⌋).toNat : ℚ) + 1 := by
      have : ((⌈h25⌉).toNat : ℤ) = ((⌊h25⌋).toNat : ℤ) + 1 := by omega
      exact_mod_cast this
    rw [hc75l, hsum, hch]
    ring

/-! ## Claim-side peak descriptions (for comparison with the code) -/

/-- Formalizes claim C1's description of the reported high peaks: indices
that are strict local maxima among their immediate neighbours and whose
value strictly exceeds the 75th percentile.  Strict local maxima are
automatically at least 2 indices apart, so the claim's minimum-separation
suppression never discards one of these candidates and adds nothing. -/
def specHighPeaks (x : List ℚ) : List ℕ :=
  (List.range x.length).filter (fun i =>
    decide (1 ≤ i) && decide (i + 1 < x.length) &&
      decide (x.getD (i - 1) 0 < x.getD i 0) &&
      decide (x.getD (i + 1) 0 < x.getD i 0) &&
      decide (percentile x 75 < x.getD i 0))

/-- Formalizes the spec's low-peak procedure for an outflow series: the
high-peak procedure applied to the negated series, with the height
threshold taken from the 25th percentile of the original series
(`-v ≥ -p25` is `v ≤ p25`). -/
def specLowPeaks (x : List ℚ) : List ℕ :=
  findPeaks (x.map (fun v => -v)) (-(percentile x 25)) 2

/-! ## Concrete evaluation helpers (rational arithmetic is opaque to
kernel reduction, so concrete values are established by rewriting) -/

lemma percentile_eval (a : List ℚ) (q v : ℚ) (s : List ℚ) (lo hi : ℕ)
    (hs : sortQ a = s)
    (hlo : ⌊((a.length : ℚ) - 1) * q / 100⌋ = (lo : ℤ))
    (hhi : ⌈((a.length : ℚ) - 1) * q / 100⌉ = (hi : ℤ))
    (hv : s.getD lo 0 +
      (((a.length : ℚ) - 1) * q / 100 - (lo : ℚ)) * (s.getD hi 0 - s.getD lo 0) = v) :
    percentile a q = v := by
  simp only [percentile, hs, hlo, hhi, Int.toNat_natCast]
  exact hv

lemma p75_scenarioA : percentile [10, 12, 2] 75 = 11 := by
  refine percentile_eval _ _ _ [2, 10, 12] 1 2 ?_ ?_ ?_ ?_
  · norm_num [sortQ, List.insertionSort, List.orderedInsert]
  · rw [Int.floor_eq_iff]; norm_num
  · rw [Int.ceil_eq_iff]; norm_num
  · norm_num

lemma lm_scenarioA : localMaxima [10, 12, 2] = [1] := by
  norm_num [localMaxima, lmAux, findAheadF, List.getD]

lemma findPeaks_scenarioA : findPeaks [10, 12, 2] (percentile [10, 12, 2] 75) 2 = [1] := by
  rw [p75_scenarioA, findPeaks_eq_filter, lm_scenarioA]
  norm_num [List.getD]

lemma p75_flat : percentile [0, 2, 0, 2, 0] 75 = 2 := by
  refine percentile_eval _ _ _ [0, 0, 0, 2, 2] 3 3 ?_ ?_ ?_ ?_
  · norm_num [sortQ, List.insertionSort, List.orderedInsert]
  · rw [Int.floor_eq_iff]; norm_num
  · rw [Int.ceil_eq_iff]; norm_num
  · norm_num [List.getD]

lemma lm_flat : localMaxima [0, 2, 0, 2, 0] = [1, 3] := by
  norm_num [localMaxima, lmAux, findAheadF, List.getD]

lemma fp_flat : findPeaks [0, 2, 0, 2, 0] (percentile [0, 2, 0, 2, 0] 75) 2 = [1, 3] := by
  rw [p75_flat, findPeaks_eq_filter, lm_flat]
  norm_num [List.getD]

lemma spec_flat : specHighPeaks [0, 2, 0, 2, 0] = [] := by
  norm_num [specHighPeaks, p75_flat, List.getD, List.range_succ]

/-- C1 (counterexample).  On the bucket sequence `[0,2,0,2,0]` the code
reports peaks `[1,3]` (the height condition of `find_peaks` is `≥` the
75th percentile, which is 2), while the claim's strict description —
strict local maxima whose value strictly exceeds the 75th percentile —
yields no peak at all, so the claim's characterization is not what
`detect_peaks_by_project` computes. -/
theorem C1_high_peaks_counterexample :
    findPeaks [0, 2, 0, 2, 0] (percentile [0, 2, 0, 2, 0] 75) 2 ≠
      specHighPeaks [0, 2, 0, 2, 0] := by
  rw [fp_flat, spec_flat]
  simp

/-- C1 (amended).  For every bucket sequence with at least 3 buckets, the
high peaks reported by `detect_peaks_by_project` are exactly the local
maxima (plateau midpoints; strict maxima when neighbours differ) whose
value is at least (`≥`, not strictly above) the 75th percentile of the
bucket values; local maxima are always at least 2 buckets apart, so the
minimum-separation-2 suppression never removes a candidate; in
particular, for the bucket sequence `[10,12,2]` the sole reported high
peak is index 1 (value 12). -/
theorem C1_high_peaks_amended (x : List ℚ) (_hx : 3 ≤ x.length) :
    findPeaks x (percentile x 75) 2 =
      (localMaxima x).filter (fun i => decide (percentile x 75 ≤ x.getD i 0)) ∧
    (localMaxima x).Pairwise (fun a b => a + 2 ≤ b) ∧
    findPeaks [10, 12, 2] (percentile [10, 12, 2] 75) 2 = [1] :=
  ⟨findPeaks_eq_filter x _, localMaxima_pairwise x, findPeaks_scenarioA⟩

/-- C1 (witness).  The amended statement instantiated at the scenario-A
bucket sequence `[10,12,2]`. -/
theorem C1_high_peaks_witness :
    3 ≤ ([10, 12, 2] : List ℚ).length ∧
      findPeaks [10, 12, 2] (percentile [10, 12, 2] 75) 2 =
        (localMaxima [10, 12, 2]).filter
          (fun i => decide (percentile [10, 12, 2] 75 ≤ ([10, 12, 2] : List ℚ).getD i 0)) :=
  ⟨by norm_num, (C1_high_peaks_amended [10, 12, 2] (by norm_num)).1⟩

lemma p75_vee : percentile [10, 2, 10] 75 = 10 := by
  refine percentile_eval _ _ _ [2, 10, 10] 1 2 ?_ ?_ ?_ ?_
  · norm_num [sortQ, List.insertionSort, List.orderedInsert]
  · rw [Int.floor_eq_iff]; norm_num
  · rw [Int.ceil_eq_iff]; norm_num
  · norm_num [List.getD]

lemma p25_vee : percentile [10, 2, 10] 25 = 6 := by
  refine percentile_eval _ _ _ [2, 10, 10] 0 1 ?_ ?_ ?_ ?_
  · norm_num [sortQ, List.insertionSort, List.orderedInsert]
  · rw [Int.floor_eq_iff]; norm_num
  · rw [Int.ceil_eq_iff]; norm_num
  · norm_num [List.getD]

lemma lm_vee : localMaxima [10, 2, 10] = [] := by
  norm_num [localMaxima, lmAux, findAheadF, List.getD]

lemma fp_vee : findPeaks [10, 2, 10] (percentile [10, 2, 10] 75) 2 = [] := by
  rw [findPeaks_eq_filter, lm_vee]
  rfl

lemma lm_vee_neg : localMaxima [-10, -2, -10] = [1] := by
  norm_num [localMaxima, lmAux, findAheadF, List.getD]

lemma spec_low_vee : specLowPeaks [10, 2, 10] = [1] := by
  unfold specLowPeaks
  have hmap : ([10, 2, 10] : List ℚ).map (fun v => -v) = [-10, -2, -10] := by norm_num
  rw [hmap, p25_vee, findPeaks_eq_filter, lm_vee_neg]
  norm_num [List.getD]

/-- C2 (counterexample).  A project whose movement rows are Entrada-only
with hourly buckets `[10,2,10]`: the bucket sequence has a clear low peak
at index 1 under the claimed procedure (`specLowPeaks [10,2,10] = [1]`),
but `detect_peaks_by_project` performs no minima detection on an Entrada
series — its output entry for the project carries empty peak arrays and
no low-peak data at all, contradicting the claim that every
project/direction sequence gets low peaks reported alongside high
peaks. -/
theorem C2_low_peaks_counterexample :
    detectPeaksByProject
        [⟨480, "L1", "Entrada", 10⟩, ⟨540, "L1", "Entrada", 2⟩, ⟨600, "L1", "Entrada", 10⟩] =
      [("L1", ⟨[(480, 10), (540, 2), (600, 10)], [], [], [], [], [], [], []⟩)] ∧
    specLowPeaks [10, 2, 10] = [1] := by
  constructor
  · set rows : List MovRow :=
      [⟨480, "L1", "Entrada", 10⟩, ⟨540, "L1", "Entrada", 2⟩, ⟨600, "L1", "Entrada", 10⟩]
      with hrows
    have hgroupE : groupSumByHour (rows.filter (fun r => r.tipo == "Entrada")) =
        [(480, 10), (540, 2), (600, 10)] := by
      rw [hrows]
      norm_num [groupSumByHour, sortedKeys, floorH, List.insertionSort, List.orderedInsert]
    have hgroupS : groupSumByHour (rows.filter (fun r => r.tipo == "Saída")) = [] := rfl
    have hentry : detectPeaksProject rows =
        some ⟨[(480, 10), (540, 2), (600, 10)], [], [], [], [], [], [], []⟩ := by
      simp only [detectPeaksProject, hgroupE, hgroupS]
      rw [hrows]
      norm_num [fp_vee]
    have hfilter : rows.filter (fun r => r.linha == "L1") = rows := rfl
    have huniq : uniqueFirst (rows.map (fun r => r.linha)) = ["L1"] := rfl
    simp only [detectPeaksByProject, huniq, List.filterMap_cons, List.filterMap_nil,
      hfilter, hentry]
    rfl
  · exact spec_low_vee

/-- C2 (amended).  Low-peak detection happens only for the Saída
(outflow) series, and there it is exact: because outflow quantities are
normalized to nonpositive values upstream, the code's
maxima-on-absolute-magnitude detection with the 75th percentile of the
magnitudes coincides with local-minima detection on the original series
thresholded at its 25th percentile; the Entrada series receives no
minima detection. -/
theorem C2_low_peaks_amended (x : List ℚ) (_hx : 3 ≤ x.length)
    (hneg : ∀ v ∈ x, v ≤ 0) :
    detectSaidaPeaks x = specLowPeaks x := by
  unfold detectSaidaPeaks specLowPeaks
  have hmap : x.map (fun v => |v|) = x.map (fun v => -v) :=
    List.map_congr_left (fun v hv => abs_of_nonpos (hneg v hv))
  have hlen : 1 ≤ x.length := by omega
  rw [hmap, percentile_neg x hlen]

/-- C2 (witness).  The amended statement instantiated at the nonpositive
outflow bucket sequence `[-2,-10,-2]`. -/
theorem C2_low_peaks_witness :
    (3 ≤ ([-2, -10, -2] : List ℚ).length ∧ ∀ v ∈ ([-2, -10, -2] : List ℚ), v ≤ 0) ∧
      detectSaidaPeaks [-2, -10, -2] = specLowPeaks [-2, -10, -2] := by
  have hneg : ∀ v ∈ ([-2, -10, -2] : List ℚ), v ≤ 0 := by
    intro v hv
    rcases List.mem_cons.mp hv with h | hv'
    · rw [h]; norm_num
    rcases List.mem_cons.mp hv' with h | hv''
    · rw [h]; norm_num
    rcases List.mem_cons.mp hv'' with h | hv'''
    · rw [h]; norm_num
    · simp at hv'''
  exact ⟨⟨by norm_num, hneg⟩, C2_low_peaks_amended [-2, -10, -2] (by norm_num) hneg⟩

/-- C3.  A project with fewer than 3 movement records is skipped entirely
by `detect_peaks_by_project` (the `continue` in the loop): its key does
not appear in the returned mapping at all, not even with empty peak
arrays. -/
theorem C3_skip_small_projects (rows : List MovRow) (p : String)
    (h : (rows.filter (fun r => r.linha == p)).length < 3) :
    p ∉ (detectPeaksByProject rows).map Prod.fst := by
  intro hmem
  rcases List.mem_map.mp hmem with ⟨pair, hpair, hfst⟩
  rcases List.mem_filterMap.mp hpair with ⟨q, _hq, hsome⟩
  rcases Option.map_eq_some'.mp hsome with ⟨entry, hdet, hpe⟩
  have hqp : q = p := by rw [← hfst, ← hpe]
  rw [hqp] at hdet
  unfold detectPeaksProject at hdet
  rw [if_pos h] at hdet
  exact Option.noConfusion hdet

/-- C3 (witness).  A dataset where project `L2` has exactly 2 movement
records: `L2` is absent from the detector's key set. -/
theorem C3_skip_small_projects_witness :
    (([⟨480, "L1", "Entrada", 10⟩, ⟨540, "L1", "Entrada", 12⟩, ⟨600, "L1", "Entrada", 2⟩,
        ⟨480, "L2", "Entrada", 1⟩, ⟨540, "L2", "Entrada", 1⟩] : List MovRow).filter
      (fun r => r.linha == "L2")).length < 3 ∧
    "L2" ∉ (detectPeaksByProject
      [⟨480, "L1", "Entrada", 10⟩, ⟨540, "L1", "Entrada", 12⟩, ⟨600, "L1", "Entrada", 2⟩,
        ⟨480, "L2", "Entrada", 1⟩, ⟨540, "L2", "Entrada", 1⟩]).map Prod.fst :=
  ⟨by decide, C3_skip_small_projects _ "L2" (by decide)⟩

/-! ## Upsert lemmas for the critical-item history -/

lemma hist_branch_def (h : List HistEntry) (D : ℕ) (T C : ℚ) :
    (saveCriticalHistory h D T C).Perm
      (if h.isEmpty then [⟨D, pctOf T C, T, C⟩]
       else if h.any (fun e => e.data == D) then
         h.map (fun e => if e.data == D then ⟨e.data, pctOf T C, T, C⟩ else e)
       else h ++ [⟨D, pctOf T C, T, C⟩]) := by
  unfold saveCriticalHistory
  exact List.perm_insertionSort _ _

lemma hist_filter_le_one (D : ℕ) :
    ∀ (h : List HistEntry), (h.map (fun e => e.data)).Nodup →
      (h.filter (fun e => e.data == D)).length ≤ 1 := by
  intro h
  induction h with
  | nil => intro _; simp
  | cons a t ih =>
      intro hnd
      rw [List.map_cons, List.nodup_cons] at hnd
      by_cases hd : a.data = D
      · have hnone : t.filter (fun e => e.data == D) = [] := by
          rw [List.filter_eq_nil_iff]
          intro e he hbeq
          exact hnd.1 (List.mem_map.mpr ⟨e, he, by
            rw [beq_iff_eq] at hbeq
            rw [hbeq, hd]⟩)
        simp [List.filter_cons, hd, hnone]
      · simpa [List.filter_cons, hd] using ih hnd.2

lemma hist_map_filter_length (f : HistEntry → HistEntry)
    (hf : ∀ e, (f e).data = e.data) (D : ℕ) :
    ∀ (h : List HistEntry),
      ((h.map f).filter (fun e => e.data == D)).length =
        (h.filter (fun e => e.data == D)).length := by
  intro h
  induction h with
  | nil => rfl
  | cons a t ih =>
      by_cases hd : a.data = D
      · simp [List.filter_cons, hf, hd, ih]
      · simp [List.filter_cons, hf, hd, ih]

lemma save_values (h : List HistEntry) (D : ℕ) (T C : ℚ) :
    ∀ e ∈ saveCriticalHistory h D T C, e.data = D →
      e.percentual = pctOf T C ∧ e.totalItems = T ∧ e.itemsCriticos = C := by
  intro e he hd
  have he2 := (hist_branch_def h D T C).subset he
  by_cases h1 : h.isEmpty
  · rw [if_pos h1] at he2
    rcases List.mem_singleton.mp he2 with rfl
    exact ⟨rfl, rfl, rfl⟩
  · rw [if_neg h1] at he2
    by_cases h2 : h.any (fun e => e.data == D)
    · rw [if_pos h2] at he2
      rcases List.mem_map.mp he2 with ⟨a, _ha, hfa⟩
      by_cases had : (a.data == D) = true
      · rw [if_pos had] at hfa
        rw [← hfa]
        exact ⟨rfl, rfl, rfl⟩
      · rw [if_neg had] at hfa
        rw [← hfa] at hd
        exact absurd hd (by simpa using had)
    · rw [if_neg h2] at he2
      rcases List.mem_append.mp he2 with hmem | hmem
      · exfalso
        apply h2
        rw [List.any_eq_true]
        exact ⟨e, hmem, by rw [beq_iff_eq]; exact hd⟩
      · rcases List.mem_singleton.mp hmem with rfl
        exact ⟨rfl, rfl, rfl⟩

lemma save_dates_nodup (h : List HistEntry) (D : ℕ) (T C : ℚ)
    (hnd : (h.map (fun e => e.data)).Nodup) :
    ((saveCriticalHistory h D T C).map (fun e => e.data)).Nodup := by
  have hp := (hist_branch_def h D T C).map (fun e => e.data)
  rw [hp.nodup_iff]
  by_cases h1 : h.isEmpty
  · rw [if_pos h1]
    simp
  · rw [if_neg h1]
    by_cases h2 : h.any (fun e => e.data == D)
    · rw [if_pos h2, List.map_map]
      have hcomp : ((fun e : HistEntry => e.data) ∘
          (fun e : HistEntry => if e.data == D then
            HistEntry.mk e.data (pctOf T C) T C else e)) = fun e : HistEntry => e.data := by
        funext a
        by_cases had : a.data == D
        · simp [Function.comp, had]
        · simp [Function.comp, had]
      rw [hcomp]
      exact hnd
    · rw [if_neg h2, List.map_append]
      rw [List.nodup_append]
      refine ⟨hnd, List.nodup_singleton _, ?_⟩
      intro d hdl hdr
      rcases List.mem_map.mp hdl with ⟨e, he, hed⟩
      rcases List.mem_singleton.mp (by simpa using hdr) with rfl
      apply h2
      rw [List.any_eq_true]
      exact ⟨e, he, by rw [beq_iff_eq]; exact hed⟩

lemma save_count_one (h : List HistEntry) (D : ℕ) (T C : ℚ)
    (hnd : (h.map (fun e => e.data)).Nodup) :
    ((saveCriticalHistory h D T C).filter (fun e => e.data == D)).length = 1 := by
  have hp := (hist_branch_def h D T C).filter (fun e => e.data == D)
  rw [hp.length_eq]
  by_cases h1 : h.isEmpty
  · rw [if_pos h1]
    simp [List.filter_cons]
  · rw [if_neg h1]
    by_cases h2 : h.any (fun e => e.data == D)
    · rw [if_pos h2]
      rw [hist_map_filter_length _ (fun e => by by_cases had : e.data = D <;> simp [had]) D h]
      have hle := hist_filter_le_one D h hnd
      rcases List.any_eq_true.mp h2 with ⟨e, he, hbeq⟩
      have hpos : 0 < (h.filter (fun e => e.data == D)).length :=
        List.length_pos.mpr (by
          intro hnil
          have hmemf : e ∈ h.filter (fun e => e.data == D) :=
            List.mem_filter.mpr ⟨he, by simpa using hbeq⟩
          rw [hnil] at hmemf
          exact List.not_mem_nil e hmemf)
      omega
    · rw [if_neg h2, List.filter_append]
      have hnone : h.filter (fun e => e.data == D) = [] := by
        rw [List.filter_eq_nil_iff]
        intro e he hbeq
        exact h2 (List.any_eq_true.mpr ⟨e, he, hbeq⟩)
      simp [hnone, List.filter_cons]

/-- C4 (amended).  Provided the starting history satisfies the intended
invariant (at most one entry per calendar date), applying the upsert
twice for day `D` leaves exactly one entry dated `D` carrying the second
call's totals and percentage; and the invariant itself is preserved by
every single upsert.  (Without the invariant on the starting history the
claim fails: the overwrite branch updates every row matching today's
date and never merges pre-existing duplicates — see the
counterexample.) -/
theorem C4_upsert_amended (h0 : List HistEntry) (D : ℕ) (T1 C1 T2 C2 : ℚ)
    (hnd : (h0.map (fun e => e.data)).Nodup) :
    (((saveCriticalHistory (saveCriticalHistory h0 D T1 C1) D T2 C2).filter
        (fun e => e.data == D)).length = 1 ∧
      ∀ e ∈ saveCriticalHistory (saveCriticalHistory h0 D T1 C1) D T2 C2, e.data = D →
        e.percentual = pctOf T2 C2 ∧ e.totalItems = T2 ∧ e.itemsCriticos = C2) ∧
    ∀ (h : List HistEntry) (D' : ℕ) (T C : ℚ), (h.map (fun e => e.data)).Nodup →
      ((saveCriticalHistory h D' T C).map (fun e => e.data)).Nodup :=
  ⟨⟨save_count_one _ D T2 C2 (save_dates_nodup h0 D T1 C1 hnd),
    save_values _ D T2 C2⟩,
   fun h D' T C hnd' => save_dates_nodup h D' T C hnd'⟩

/-- C4 (witness).  The amended statement instantiated at the empty
starting history with two upserts for day 7. -/
theorem C4_upsert_witness :
    (([] : List HistEntry).map (fun e => e.data)).Nodup ∧
      ((saveCriticalHistory (saveCriticalHistory [] 7 4 1) 7 8 2).filter
        (fun e => e.data == 7)).length = 1 :=
  ⟨by simp, ((C4_upsert_amended [] 7 4 1 8 2 (by simp)).1).1⟩

/-- C4 (counterexample).  On a starting history that already violates the
claimed invariant — two entries dated day 5 — two successive upserts for
day 5 leave two entries dated 5, not exactly one: the claim's universal
quantification over every starting history fails (the overwrite branch
rewrites all matching rows but never deduplicates). -/
theorem C4_upsert_counterexample :
    ((saveCriticalHistory (saveCriticalHistory
        [⟨5, 0, 1, 0⟩, ⟨5, 0, 2, 0⟩] 5 10 3) 5 20 4).filter
      (fun e => e.data == 5)).length = 2 := by
  norm_num [saveCriticalHistory, List.insertionSort, List.orderedInsert, List.filter_cons]

/-- C5 (counterexample).  A coverage record whose level text is
`"critico baixo"` matches a critical token and contains `baixo`, yet
`get_critical_summary` counts it in `total_critical` (its mask has no
`baixo` exclusion): the claim that such records are excluded in the
primary summary path is false. -/
theorem C5_baixo_counterexample :
    getCriticalSummaryTotal ["critico baixo"] = 1 ∧
      summaryMask "critico baixo" = true ∧ containsCI "baixo" "critico baixo" = true := by
  refine ⟨?_, ?_, ?_⟩ <;> decide

/-- C5 (amended).  The `baixo` exclusion lives in
`analyze_critical_items_over_time`, not in `get_critical_summary`: a
record matching a critical token that also contains `baixo` is counted by
`get_critical_summary`'s `total_critical` but excluded from the history
path's critical count. -/
theorem C5_baixo_amended (levels : List String) (s : String)
    (hcrit : summaryMask s = true) (hbaixo : containsCI "baixo" s = true) :
    getCriticalSummaryTotal (s :: levels) = getCriticalSummaryTotal levels + 1 ∧
      historyCriticalTotal (s :: levels) = historyCriticalTotal levels := by
  constructor
  · unfold getCriticalSummaryTotal
    rw [List.filter_cons, if_pos hcrit, List.length_cons]
  · unfold historyCriticalTotal
    have hmask : historyMask s = false := by
      unfold historyMask
      rw [hbaixo]
      simp
    rw [List.filter_cons, hmask]
    simp

/-- C5 (witness).  The amended statement instantiated at the level text
`"critico baixo"` against the empty remainder. -/
theorem C5_baixo_witness :
    (summaryMask "critico baixo" = true ∧ containsCI "baixo" "critico baixo" = true) ∧
      getCriticalSummaryTotal ["critico baixo"] = getCriticalSummaryTotal [] + 1 ∧
      historyCriticalTotal ["critico baixo"] = historyCriticalTotal [] :=
  ⟨⟨by decide, by decide⟩, C5_baixo_amended [] "critico baixo" (by decide) (by decide)⟩

/-- C6 (counterexample).  An input whose single row fails to parse is
normalized to `some []` — exactly the same value an empty successful
input produces: `process_temporal_data` reports no `EmptyResultError`-like
failure, so a caller cannot distinguish "nothing parsed" from "empty
after filtering". -/
theorem C6_all_dropped_counterexample :
    processTemporalData (fun _ => none) (fun _ => some 1)
        [⟨"x", "1", "L1", "Entrada"⟩] = some [] ∧
      processTemporalData (fun _ => some 0) (fun _ => some 1) ([] : List RawRow) = some [] :=
  ⟨rfl, rfl⟩

/-- C6 (amended).  When every row fails to parse (date or quantity), the
normalization returns the ordinary successful empty dataset `some []`;
no distinguishable failure outcome is produced. -/
theorem C6_all_dropped_amended (parseDT : String → Option ℕ) (parseQty : String → Option ℚ)
    (rows : List RawRow)
    (h : ∀ r ∈ rows, parseDT r.dataMovimento = none ∨ parseQty r.quantidade = none) :
    processTemporalData parseDT parseQty rows = some [] := by
  simp only [processTemporalData]
  have hq : ((rows.filterMap (fun r => (parseDT r.dataMovimento).map (fun t => (r, t)))).filterMap
      (fun p => (parseQty p.1.quantidade).map (fun q => (p.1, p.2, q)))) = [] := by
    rw [List.filterMap_eq_nil_iff]
    intro p hp
    rcases List.mem_filterMap.mp hp with ⟨r, hr, hsome⟩
    rcases Option.map_eq_some'.mp hsome with ⟨tv, hdt, hpair⟩
    rcases h r hr with hn | hn
    · rw [hn] at hdt
      exact Option.noConfusion hdt
    · rw [← hpair]
      rw [hn]
      rfl
  rw [hq]
  rfl

/-- C6 (witness).  The amended statement instantiated at a one-row input
whose date never parses. -/
theorem C6_all_dropped_witness :
    (∀ r ∈ ([⟨"x", "1", "L1", "Entrada"⟩] : List RawRow),
        (fun _ => (none : Option ℕ)) r.dataMovimento = none ∨
          (fun _ => (some (1 : ℚ))) r.quantidade = none) ∧
      processTemporalData (fun _ => none) (fun _ => some 1)
        [⟨"x", "1", "L1", "Entrada"⟩] = some [] :=
  ⟨fun _r _ => Or.inl rfl,
   C6_all_dropped_amended (fun _ => none) (fun _ => some 1) _ (fun _r _ => Or.inl rfl)⟩

/-- C7 (counterexample).  A material with positive balance 5 and zero
requirement gets coverage percentage `+inf`, which is not the claimed
not-a-number/null sentinel (and `Cobertura %` is never aggregated
downstream — it is only displayed). -/
theorem C7_div_zero_counterexample :
    coberturaPct 5 0 = PFloat.pinf ∧ PFloat.pinf ≠ PFloat.nan := by
  constructor
  · rfl
  · simp

/-- C7 (amended).  With zero requirement, the coverage-percentage
computation never raises (it is a total function into the extended float
domain): it yields `NaN` exactly when the balance is also zero, `+inf`
for positive balance and `-inf` for negative balance.  No downstream
aggregation over the column exists to skip anything. -/
theorem C7_div_zero_amended (b : ℚ) :
    (coberturaPct b 0 = PFloat.nan ↔ b = 0) ∧
      (0 < b → coberturaPct b 0 = PFloat.pinf) ∧
      (b < 0 → coberturaPct b 0 = PFloat.ninf) := by
  have h0 : ¬((0 : ℚ) ≠ 0) := by simp
  rcases lt_trichotomy b 0 with hb | hb | hb
  · have hv : coberturaPct b 0 = PFloat.ninf := by
      unfold coberturaPct divP
      rw [if_neg h0, if_neg (by linarith), if_pos hb]
      rfl
    rw [hv]
    exact ⟨⟨fun hcon => absurd hcon (by simp), fun hcon => absurd hcon (by linarith)⟩,
      fun hcon => absurd hcon (by linarith), fun _ => rfl⟩
  · have hv : coberturaPct b 0 = PFloat.nan := by
      unfold coberturaPct divP
      rw [if_neg h0, if_neg (by linarith), if_neg (by linarith)]
      rfl
    rw [hv]
    exact ⟨⟨fun _ => hb, fun _ => rfl⟩,
      fun hcon => absurd hcon (by linarith), fun hcon => absurd hcon (by linarith)⟩
  · have hv : coberturaPct b 0 = PFloat.pinf := by
      unfold coberturaPct divP
      rw [if_neg h0, if_pos hb]
      rfl
    rw [hv]
    exact ⟨⟨fun hcon => absurd hcon (by simp), fun hcon => absurd hcon (by linarith)⟩,
      fun _ => rfl, fun hcon => absurd hcon (by linarith)⟩

/-- C7 (witness).  The amended statement instantiated at balance 5. -/
theorem C7_div_zero_witness :
    (0 : ℚ) < 5 ∧ coberturaPct 5 0 = PFloat.pinf :=
  ⟨by norm_num, (C7_div_zero_amended 5).2.1 (by norm_num)⟩

lemma length_filterMap_add {α β : Type} (f : α → Option β) :
    ∀ l : List α,
      (l.filterMap f).length + (l.filter (fun a => (f a).isNone)).length = l.length := by
  intro l
  induction l with
  | nil => rfl
  | cons a t ih =>
      cases hfa : f a with
      | none =>
          simp [List.filterMap_cons, hfa, List.filter_cons]
          omega
      | some b =>
          simp [List.filterMap_cons, hfa, List.filter_cons]
          omega

/-- C8.  For every pair of cell parsers and every input table, the
normalization succeeds with a dataset in which every kept row carries a
parsed timestamp and a parsed (numeric) quantity originating from some
input row, and the number of kept rows plus the number of rows dropped
for an unparseable date or quantity equals the number of input rows. -/
theorem C8_normalization_accounting (parseDT : String → Option ℕ)
    (parseQty : String → Option ℚ) (rows : List RawRow) :
    ∃ kept, processTemporalData parseDT parseQty rows = some kept ∧
      (∀ pr ∈ kept, ∃ r ∈ rows, parseDT r.dataMovimento = some pr.ts ∧
        parseQty r.quantidade = some pr.qty ∧ pr.linha = r.linha ∧ pr.tipo = r.tipo) ∧
      kept.length + (rows.filter (fun r =>
        ((parseDT r.dataMovimento).isNone || (parseQty r.quantidade).isNone))).length =
        rows.length := by
  refine ⟨_, rfl, ?_, ?_⟩
  · intro pr hpr
    have hpr2 := ((List.perm_insertionSort
      (fun a b : ProcRow => a.ts ≤ b.ts) _).mem_iff).mp hpr
    rcases List.mem_map.mp hpr2 with ⟨t, ht, hmk⟩
    rcases List.mem_filterMap.mp ht with ⟨p, hp, hq⟩
    rcases Option.map_eq_some'.mp hq with ⟨qv, hqv, hteq⟩
    rcases List.mem_filterMap.mp hp with ⟨r, hr, hdt⟩
    rcases Option.map_eq_some'.mp hdt with ⟨tv, htv, hpeq⟩
    subst hpeq
    subst hteq
    subst hmk
    exact ⟨r, hr, htv, hqv, rfl, rfl⟩
  · have hsortlen : ∀ (l : List ProcRow), (l.insertionSort (fun a b => a.ts ≤ b.ts)).length
        = l.length := fun l => (List.perm_insertionSort _ l).length_eq
    rw [hsortlen, List.length_map, List.filterMap_filterMap]
    have hpred : ∀ r ∈ rows,
        ((((parseDT r.dataMovimento).map (fun t => (r, t))).bind
          (fun p => (parseQty p.1.quantidade).map (fun q => (p.1, p.2, q)))).isNone) =
        ((parseDT r.dataMovimento).isNone || (parseQty r.quantidade).isNone) := by
      intro r _
      cases hdt : parseDT r.dataMovimento with
      | none => rfl
      | some tv =>
          cases hqv : parseQty r.quantidade with
          | none => simp [hqv]
          | some qv => simp [hqv]
    rw [← List.filter_congr hpred]
    exact length_filterMap_add _ rows

lemma filter_mem_self {α : Type} (l : List α) (p : α → Bool)
    (h : ∀ a ∈ l, p a = true) : l.filter p = l :=
  List.filter_eq_self.mpr h

/-- C9.  Applying `apply_filters` to its own (successful) output with the
same project set and date bounds returns that output unchanged: the
project filter and the date filter are both row predicates, so a second
pass keeps every row that survived the first. -/
theorem C9_apply_filters_idempotent (t : Table) (projects : List String)
    (startD endD : ℕ) (t' : Table)
    (h : applyFilters t projects startD endD = Except.ok t') :
    applyFilters t' projects startD endD = Except.ok t' := by
  unfold applyFilters at h
  by_cases h1 : "Linha ATO" ∈ t.cols
  · rw [if_pos h1] at h
    by_cases h2 : "Data Movimento" ∈ t.cols
    · rw [if_pos h2] at h
      injection h with h
      subst h
      unfold applyFilters
      rw [if_pos h1, if_pos h2]
      have hpm : ((t.rows.filter (projectMask projects)).filter
          (dateMask "Data Movimento" startD endD)).filter (projectMask projects) =
          (t.rows.filter (projectMask projects)).filter
            (dateMask "Data Movimento" startD endD) :=
        filter_mem_self _ _ (fun a ha =>
          (List.mem_filter.mp (List.mem_of_mem_filter ha)).2)
      rw [hpm]
      rw [filter_mem_self _ _ (fun a ha => (List.mem_filter.mp ha).2)]
    · rw [if_neg h2] at h
      by_cases h3 : "Data_Processamento" ∈ t.cols
      · rw [if_pos h3] at h
        injection h with h
        subst h
        unfold applyFilters
        rw [if_pos h1, if_neg h2, if_pos h3]
        have hpm : ((t.rows.filter (projectMask projects)).filter
            (dateMask "Data_Processamento" startD endD)).filter (projectMask projects) =
            (t.rows.filter (projectMask projects)).filter
              (dateMask "Data_Processamento" startD endD) :=
          filter_mem_self _ _ (fun a ha =>
            (List.mem_filter.mp (List.mem_of_mem_filter ha)).2)
        rw [hpm]
        rw [filter_mem_self _ _ (fun a ha => (List.mem_filter.mp ha).2)]
      · rw [if_neg h3] at h
        injection h with h
        subst h
        unfold applyFilters
        rw [if_pos h1, if_neg h2, if_neg h3]
        rw [filter_mem_self _ _ (fun a ha => (List.mem_filter.mp ha).2)]
  · rw [if_neg h1] at h
    exact Except.noConfusion h

/-- C9 (witness).  The idempotence statement instantiated at a concrete
two-row table, with the first application evaluated. -/
theorem C9_apply_filters_witness :
    applyFilters
        ⟨["Linha ATO", "Data Movimento"],
          [[("Linha ATO", Cell.s "L1"), ("Data Movimento", Cell.d 10)],
           [("Linha ATO", Cell.s "L2"), ("Data Movimento", Cell.d 25)]]⟩
        ["L1"] 0 20 =
      Except.ok ⟨["Linha ATO", "Data Movimento"],
        [[("Linha ATO", Cell.s "L1"), ("Data Movimento", Cell.d 10)]]⟩ ∧
    applyFilters
        ⟨["Linha ATO", "Data Movimento"],
          [[("Linha ATO", Cell.s "L1"), ("Data Movimento", Cell.d 10)]]⟩
        ["L1"] 0 20 =
      Except.ok ⟨["Linha ATO", "Data Movimento"],
        [[("Linha ATO", Cell.s "L1"), ("Data Movimento", Cell.d 10)]]⟩ :=
  ⟨rfl,
   C9_apply_filters_idempotent
     ⟨["Linha ATO", "Data Movimento"],
       [[("Linha ATO", Cell.s "L1"), ("Data Movimento", Cell.d 10)],
        [("Linha ATO", Cell.s "L2"), ("Data Movimento", Cell.d 25)]]⟩
     ["L1"] 0 20
     ⟨["Linha ATO", "Data Movimento"],
       [[("Linha ATO", Cell.s "L1"), ("Data Movimento", Cell.d 10)]]⟩
     rfl⟩

/-- C10.  A dataset without a `Linha ATO` column makes `apply_filters`
raise an uncaught `KeyError` (the error value of the embedding), whereas
a dataset that has `Linha ATO` but neither recognized date column gets
the reported-error path: the project-filtered rows are returned. -/
theorem C10_missing_column (t : Table) (projects : List String) (startD endD : ℕ)
    (h1 : "Linha ATO" ∉ t.cols) :
    applyFilters t projects startD endD = Except.error "KeyError: Linha ATO" ∧
      ∀ t2 : Table, "Linha ATO" ∈ t2.cols → "Data Movimento" ∉ t2.cols →
        "Data_Processamento" ∉ t2.cols →
        applyFilters t2 projects startD endD =
          Except.ok ⟨t2.cols, t2.rows.filter (projectMask projects)⟩ := by
  constructor
  · unfold applyFilters
    rw [if_neg h1]
  · intro t2 ha hb hc
    unfold applyFilters
    rw [if_pos ha, if_neg hb, if_neg hc]

/-- C10 (witness).  The statement instantiated at a table whose only
column is `Data Movimento`. -/
theorem C10_missing_column_witness :
    "Linha ATO" ∉ (⟨["Data Movimento"], []⟩ : Table).cols ∧
      applyFilters ⟨["Data Movimento"], []⟩ [] 0 0 =
        Except.error "KeyError: Linha ATO" :=
  ⟨by decide, (C10_missing_column ⟨["Data Movimento"], []⟩ [] 0 0 (by decide)).1⟩

end Tenda
